import Mathlib

/-!
Verification of the BigN fixed-point decimal library.

The library stores a decimal number as an arbitrary-precision integer
(JS bigint) scaled by a power of ten.  We embed the class N shallowly:
JS bigint becomes Int, JS bigint division and remainder (which truncate
toward zero) become Int.tdiv and Int.tmod, the number-typed fields
decimals and precision become Nat once construction has succeeded
(the constructor rejects negative decimals and raises precision to at
least decimals), and throwing paths become Except or Option results.
Decimal strings are embedded as lists over a small alphabet JChar of
the characters the code inspects: digits, the decimal point, and the
minus sign produced by bigint toString.

The rounding configuration (process-wide rounding mode and the custom
rounding function slot) is passed explicitly as a Config value.
-/

/-- Rounding modes of the enum ROUNDING_MODES in the source. -/
inductive RMode where
  | DOWN
  | UP
  | TOWARD_ZERO
  | HALF_AWAY_FROM_ZERO
  | CUSTOM
deriving DecidableEq, Repr

/-- Process-wide rounding configuration: N.ROUNDING_MODE together with
the pluggable N.ROUNDING_CUSTOM_FUNCTION slot. -/
structure Config where
  mode : RMode
  customFn : Int → Int → Int

/-- The shipped defaults: HALF_AWAY_FROM_ZERO with the do-nothing
custom function. -/
def defaultConfig : Config := ⟨RMode.HALF_AWAY_FROM_ZERO, fun _ _ => 0⟩

/-- N.DEFAULT_PRECISION. -/
def DEFAULT_PRECISION : Int := 80

/-- The five stored fields of a FixedPointNumber instance. -/
structure N where
  value : Int
  precision : Nat
  factor : Int
  decimals : Nat
  decimalsFactor : Int
deriving DecidableEq, Repr

instance : Inhabited N := ⟨⟨0, 0, 1, 0, 1⟩⟩

namespace N

/-- Representation invariant of the data model: the two factor fields
are the powers of ten of the corresponding exponents and precision is
at least decimals. -/
def wf (a : N) : Prop :=
  a.factor = (10 : Int) ^ a.precision ∧
  a.decimalsFactor = (10 : Int) ^ a.decimals ∧
  a.decimals ≤ a.precision

instance (a : N) : Decidable (wf a) := by unfold wf; infer_instance

/-- N.rounders DOWN. -/
def roundersDOWN (value factor : Int) : Int :=
  let sign : Int := if value < 0 then -1 else 1
  if (sign * value).tmod factor = 0 then 0
  else if sign < 0 then -1 else 0

/-- N.rounders UP. -/
def roundersUP (value factor : Int) : Int :=
  let sign : Int := if value < 0 then -1 else 1
  if (sign * value).tmod factor = 0 then 0
  else if sign < 0 then 0 else 1

/-- N.rounders TOWARD_ZERO. -/
def roundersTOWARD_ZERO (_value _factor : Int) : Int := 0

/-- N.rounders HALF_AWAY_FROM_ZERO: the carry is the sign when twice
the remainder of sign*value by factor reaches factor (the shift left
by one in the source is multiplication by two). -/
def roundersHALF_AWAY_FROM_ZERO (value factor : Int) : Int :=
  let sign : Int := if value < 0 then -1 else 1
  if factor ≤ (sign * value).tmod factor * 2 then sign else 0

/-- Dispatch of N.rounders on the active mode; CUSTOM delegates to the
configured custom function. -/
def rounders (c : Config) : Int → Int → Int :=
  match c.mode with
  | RMode.DOWN => roundersDOWN
  | RMode.UP => roundersUP
  | RMode.TOWARD_ZERO => roundersTOWARD_ZERO
  | RMode.HALF_AWAY_FROM_ZERO => roundersHALF_AWAY_FROM_ZERO
  | RMode.CUSTOM => c.customFn

/-- The private method rounder, with both optional arguments supplied
explicitly at every call site of this embedding. -/
def rounder (c : Config) (value factor : Int) : Int := rounders c value factor

/-- Common tail of the constructor, after the string branch has fixed
the effective decimals, value and precision: the console.assert on
negative decimals does not throw, but computing 10n to a negative
bigint power does (RangeError), so negative decimals is a failure; a
requested precision below decimals is raised to decimals. -/
def constructCore (value : Int) (decimals precision : Int)
    (isPrecise : Bool) : Except String N :=
  if decimals < 0 then
    Except.error "RangeError: Exponent must be non-negative"
  else
    let d : Nat := decimals.toNat
    let p : Nat := (if precision < decimals then decimals else precision).toNat
    let factor : Int := (10 : Int) ^ p
    let decimalsFactor : Int := (10 : Int) ^ d
    Except.ok
      { value := if isPrecise then value
                 else (value * factor).tdiv decimalsFactor
        precision := p
        factor := factor
        decimals := d
        decimalsFactor := decimalsFactor }

/-- Constructor on a number or bigint value (the non-string paths). -/
def construct (value : Int) (decimals precision : Int)
    (isPrecise : Bool) : Except String N :=
  constructCore value decimals precision isPrecise

/-- Copy constructor new N(instance): Object.assign copies the five
fields, so the clone is field-for-field the same record. -/
def clone (a : N) : N := a

end N

/-- The characters a decimal-string argument is made of: digits, the
decimal point, and the leading minus sign of a negative number. -/
inductive JChar where
  | digit (d : Nat)
  | dot
  | minus
deriving DecidableEq, Repr

/-- Test for the decimal point character. -/
def isDot (c : JChar) : Bool :=
  match c with
  | JChar.dot => true
  | _ => false

/-- Test for a digit character. -/
def isDigit (c : JChar) : Bool :=
  match c with
  | JChar.digit _ => true
  | _ => false

/-- String.prototype.includes with the dot character. -/
def hasDot (s : List JChar) : Bool := s.any isDot

/-- Big-endian digit-list value, the meaning of BigInt(digitString);
BigInt of the empty string is 0. -/
def ofDigitsBE (L : List Nat) : Nat := L.foldl (fun a d => 10 * a + d) 0

/-- Digit values of a digit-character list. -/
def digitVals (s : List JChar) : List Nat :=
  s.map (fun c => match c with | JChar.digit d => d | _ => 0)

/-- BigInt(string) on a dot-free string: an optional minus sign
followed by digits (possibly none, for the empty string); anything
else throws a SyntaxError, embedded as none.  A bare minus sign also
throws. -/
def parseBI (s : List JChar) : Option Int :=
  match s with
  | JChar.minus :: rest =>
      if rest ≠ [] ∧ rest.all isDigit then
        some (-(ofDigitsBE (digitVals rest) : Int))
      else none
  | _ =>
      if s.all isDigit then some (ofDigitsBE (digitVals s) : Int)
      else none

namespace N

/-- Constructor on a string value.  When the string contains a dot the
effective decimals is recomputed from the dot position, the dots are
removed before parsing, and a falsy (zero) precision argument is
replaced by the effective decimals; otherwise the string is parsed
whole and the supplied decimals is used. -/
def constructStr (s : List JChar) (decimals precision : Int) :
    Except String N :=
  if hasDot s then
    let d : Int := (s.length : Int) - 1 - (s.findIdx isDot : Int)
    let p : Int := if precision = 0 then d else precision
    match parseBI (s.filter (fun c => !(isDot c))) with
    | none => Except.error "SyntaxError: Cannot convert to a BigInt"
    | some v => constructCore v d p false
  else
    match parseBI s with
    | none => Except.error "SyntaxError: Cannot convert to a BigInt"
    | some v => constructCore v decimals precision false

/-- Construction from a string with the default arguments: decimals 0
and precision DEFAULT_PRECISION. -/
def constructStrDefault (s : List JChar) : Except String N :=
  constructStr s 0 DEFAULT_PRECISION

/-- N.toPrecise. -/
def toPrecise (a : N) : Int := a.value

/-- N.valueOf: truncated quotient by factor plus the carry of the
active rounding mode at (value, factor). -/
def valueOf (c : Config) (a : N) : Int :=
  a.value.tdiv a.factor + rounder c a.value a.factor

/-- N.toDecimal with an explicit precision argument (the default is
the stored decimals): narrowing divides by the gap factor and applies
the rounder, widening multiplies exactly. -/
def toDecimal (c : Config) (a : N) (precision : Int) : Int :=
  if precision < (a.precision : Int) then
    let newDecimalsFactor : Int := (10 : Int) ^ ((a.precision : Int) - precision).toNat
    a.value.tdiv newDecimalsFactor + rounder c a.value newDecimalsFactor
  else
    a.value * (10 : Int) ^ (precision - (a.precision : Int)).toNat

end N

/-- Decimal representation of a nonnegative bigint, most significant
digit first; zero prints as the single digit 0. -/
def reprDigits (n : Nat) : List Nat :=
  if n = 0 then [0] else (Nat.digits 10 n).reverse

/-- BigInt.prototype.toString: sign character followed by the digits
of the absolute value. -/
def intChars (n : Int) : List JChar :=
  if n < 0 then JChar.minus :: (reprDigits n.natAbs).map JChar.digit
  else (reprDigits n.toNat).map JChar.digit

/-- String.prototype.padStart with the zero digit: pads on the left up
to the target length, a no-op when the target does not exceed the
current length (in particular for negative targets). -/
def jsPadStart (s : List JChar) (n : Int) : List JChar :=
  List.replicate (n.toNat - s.length) (JChar.digit 0) ++ s

namespace N

/-- N.toString with an explicit precision argument (the default is the
stored decimals): formats toDecimal at that precision, padding with
zeros and splitting a positive count of places off the right with a
dot; a nonpositive count instead appends that many zero digits. -/
def toString (c : Config) (a : N) (precision : Int) : List JChar :=
  let decimal : List JChar := jsPadStart (intChars (toDecimal c a precision)) precision
  if 0 < precision then
    decimal.take (decimal.length - precision.toNat) ++
      JChar.dot :: decimal.drop (decimal.length - precision.toNat)
  else
    decimal ++ List.replicate (-precision).toNat (JChar.digit 0)

/-- N.toString with the default argument, the stored decimals. -/
def toStringDefault (c : Config) (a : N) : List JChar :=
  toString c a (a.decimals : Int)

/-- The private rebase helper acting on the receiver (the clone the
arithmetic method made of this) and on the nfy clone of the operand:
the lower-precision side is scaled up in place to the higher precision
and takes over the other side's precision and factor fields.  The pure
embedding returns the post-call states of both objects as a pair
(receiver, operand). -/
def rebase (self other : N) : N × N :=
  if other.precision < self.precision then
    (self,
     { other with
         value := other.value * (10 : Int) ^ (self.precision - other.precision)
         precision := self.precision
         factor := self.factor })
  else if self.precision < other.precision then
    ({ self with
         value := self.value * (10 : Int) ^ (other.precision - self.precision)
         precision := other.precision
         factor := other.factor },
     other)
  else (self, other)

/-- N.plus on two instances: clone the receiver, rebase, and add the
rebased values on the rebased clone of the receiver. -/
def plus (a b : N) : N :=
  let p := rebase (clone a) (clone b)
  { p.1 with value := p.1.value + p.2.value }

/-- N.minus on two instances. -/
def minus (a b : N) : N :=
  let p := rebase (clone a) (clone b)
  { p.1 with value := p.1.value - p.2.value }

/-- N.mul on two instances.  The product of the rebased values is
divided by this.factor, the factor of the original receiver, which is
not the factor of the rebased clone whenever the operand had the
strictly higher precision. -/
def mul (a b : N) : N :=
  let p := rebase (clone a) (clone b)
  { p.1 with value := (p.1.value * p.2.value).tdiv a.factor }

/-- N.multipliedBy, an alias for mul. -/
def multipliedBy (a b : N) : N := mul a b

/-- N.div on two instances: this.factor (again the original receiver
factor) times the rebased dividend, divided by the rebased divisor.
A zero divisor makes the bigint division throw a RangeError, embedded
as none. -/
def div (a b : N) : Option N :=
  let p := rebase (clone a) (clone b)
  if p.2.value = 0 then none
  else some { p.1 with value := (a.factor * p.1.value).tdiv p.2.value }

/-- N.sq. -/
def sq (a : N) : N := mul a a

/-- The Newton iteration of N.sqrt: while z < y, replace (z, y) by
(((x / z) + z) / 2, z); the result is y.  All the quantities involved
stay nonnegative, so the loop is stated on Nat, where division agrees
with truncating bigint division. -/
def sqrtGo (x z y : Nat) : Nat :=
  if z < y then sqrtGo x ((x / z + z) / 2) z else y
termination_by y

/-- N.sqrt: runs Newton on value * factor; negative radicand throws
(none), a radicand below two returns the clone unchanged. -/
def sqrt (a : N) : Option N :=
  let x : Int := (clone a).value * (clone a).factor
  if x < 0 then none
  else if x < 2 then some (clone a)
  else some { a with value := (sqrtGo x.toNat (x.toNat / 2 + 1) x.toNat : Int) }

/-- N.eq on two instances: clone, rebase, compare the rebased values. -/
def eq (a b : N) : Bool :=
  let p := rebase (clone a) (clone b)
  p.1.value == p.2.value

/-- N.lt on two instances. -/
def lt (a b : N) : Bool :=
  let p := rebase (clone a) (clone b)
  decide (p.1.value < p.2.value)

/-- N.lte on two instances. -/
def lte (a b : N) : Bool :=
  let p := rebase (clone a) (clone b)
  decide (p.1.value ≤ p.2.value)

/-- N.gt on two instances. -/
def gt (a b : N) : Bool :=
  let p := rebase (clone a) (clone b)
  decide (p.2.value < p.1.value)

/-- N.gte on two instances. -/
def gte (a b : N) : Bool :=
  let p := rebase (clone a) (clone b)
  decide (p.2.value ≤ p.1.value)

end N

/-!
Object-identity model.  The pure functions above compute the values the
methods return; to settle the frame claim (operands are never mutated,
results are fresh objects) we also embed the methods against an explicit
heap of N objects, where new N(...) allocates, Object.assign into a
fresh object is an allocation of a copy, and the in-place writes that
rebase performs are heap writes at the references of the two working
clones.  References are allocation indices.
-/

/-- A heap of N objects: a store together with the index of the next
free cell. -/
structure Heap where
  mem : Nat → N
  size : Nat

namespace Heap

/-- Field read through a reference. -/
def read (h : Heap) (r : Nat) : N := h.mem r

/-- In-place mutation of the object behind a reference. -/
def write (h : Heap) (r : Nat) (v : N) : Heap :=
  ⟨fun i => if i = r then v else h.mem i, h.size⟩

/-- Allocation of a new object, returning its fresh reference. -/
def alloc (h : Heap) (v : N) : Heap × Nat :=
  (⟨fun i => if i = h.size then v else h.mem i, h.size + 1⟩, h.size)

end Heap

/-- new N(this): allocates a fresh object holding a copy of the five
fields of the object behind r. -/
def cloneRef (h : Heap) (r : Nat) : Heap × Nat := h.alloc (h.read r)

/-- The private rebase on references: mutates in place whichever of the
two working objects has the lower precision. -/
def rebaseRef (h : Heap) (self other : Nat) : Heap :=
  let s := h.read self
  let o := h.read other
  if o.precision < s.precision then
    h.write other
      { o with
          value := o.value * (10 : Int) ^ (s.precision - o.precision)
          precision := s.precision
          factor := s.factor }
  else if s.precision < o.precision then
    h.write self
      { s with
          value := s.value * (10 : Int) ^ (o.precision - s.precision)
          precision := o.precision
          factor := o.factor }
  else h

/-- Common prefix of every binary method: clone the receiver a, clone
the operand b (the nfy shortcut), rebase the two clones; returns the
post-rebase heap and the references of the two clones. -/
def binPrep (h : Heap) (a b : Nat) : Heap × Nat × Nat :=
  let c1 := cloneRef h a
  let c2 := cloneRef c1.1 b
  (rebaseRef c2.1 c1.2 c2.2, c1.2, c2.2)

/-- N.plus against the heap. -/
def plusRef (h : Heap) (a b : Nat) : Heap × Nat :=
  let q := binPrep h a b
  (q.1.write q.2.1
    { q.1.read q.2.1 with
        value := (q.1.read q.2.1).value + (q.1.read q.2.2).value },
   q.2.1)

/-- N.minus against the heap. -/
def minusRef (h : Heap) (a b : Nat) : Heap × Nat :=
  let q := binPrep h a b
  (q.1.write q.2.1
    { q.1.read q.2.1 with
        value := (q.1.read q.2.1).value - (q.1.read q.2.2).value },
   q.2.1)

/-- N.mul against the heap; this.factor is read from the original
receiver object a after the rebase. -/
def mulRef (h : Heap) (a b : Nat) : Heap × Nat :=
  let q := binPrep h a b
  (q.1.write q.2.1
    { q.1.read q.2.1 with
        value := ((q.1.read q.2.1).value * (q.1.read q.2.2).value).tdiv
                   (q.1.read a).factor },
   q.2.1)

/-- N.multipliedBy against the heap, the alias for mul. -/
def multipliedByRef (h : Heap) (a b : Nat) : Heap × Nat := mulRef h a b

/-- N.div against the heap; a zero rebased divisor throws. -/
def divRef (h : Heap) (a b : Nat) : Option (Heap × Nat) :=
  let q := binPrep h a b
  if (q.1.read q.2.2).value = 0 then none
  else some
    (q.1.write q.2.1
      { q.1.read q.2.1 with
          value := ((q.1.read a).factor * (q.1.read q.2.1).value).tdiv
                     (q.1.read q.2.2).value },
     q.2.1)

/-- N.sq against the heap: mul of the receiver with itself. -/
def sqRef (h : Heap) (a : Nat) : Heap × Nat := mulRef h a a

/-- N.sqrt against the heap. -/
def sqrtRef (h : Heap) (a : Nat) : Option (Heap × Nat) :=
  let c := cloneRef h a
  let x : Int := (c.1.read c.2).value * (c.1.read c.2).factor
  if x < 0 then none
  else if x < 2 then some c
  else some
    (c.1.write c.2
      { c.1.read c.2 with
          value := (N.sqrtGo x.toNat (x.toNat / 2 + 1) x.toNat : Int) },
     c.2)

/-- N.eq against the heap: returns the post-call heap and the boolean. -/
def eqRef (h : Heap) (a b : Nat) : Heap × Bool :=
  let q := binPrep h a b
  (q.1, (q.1.read q.2.1).value == (q.1.read q.2.2).value)

/-- N.lt against the heap. -/
def ltRef (h : Heap) (a b : Nat) : Heap × Bool :=
  let q := binPrep h a b
  (q.1, decide ((q.1.read q.2.1).value < (q.1.read q.2.2).value))

/-- N.lte against the heap. -/
def lteRef (h : Heap) (a b : Nat) : Heap × Bool :=
  let q := binPrep h a b
  (q.1, decide ((q.1.read q.2.1).value ≤ (q.1.read q.2.2).value))

/-- N.gt against the heap. -/
def gtRef (h : Heap) (a b : Nat) : Heap × Bool :=
  let q := binPrep h a b
  (q.1, decide ((q.1.read q.2.2).value < (q.1.read q.2.1).value))

/-- N.gte against the heap. -/
def gteRef (h : Heap) (a b : Nat) : Heap × Bool :=
  let q := binPrep h a b
  (q.1, decide ((q.1.read q.2.2).value ≤ (q.1.read q.2.1).value))

/-- Leading-zero stripping on a digit list (the normalization of the
integer part that toString performs on re-expansion). -/
def stripZeros (L : List Nat) : List Nat := L.dropWhile (fun d => d == 0)

/-- Left zero-padding of a digit list to a target length. -/
def padD (L : List Nat) (n : Nat) : List Nat :=
  List.replicate (n - L.length) 0 ++ L

/-- A decimal string built from an integer digit part and a fractional
digit part. -/
def mkDecStr (I F : List Nat) : List JChar :=
  I.map JChar.digit ++ JChar.dot :: F.map JChar.digit

/-- A character that is not the digit zero (used to state that two
strings differ by more than leading or trailing zeros). -/
def nonzeroChar (c : JChar) : Bool :=
  match c with
  | JChar.digit 0 => false
  | _ => true

/-!
Helper lemmas.
-/

theorem wf_value_update (a : N) (v : Int) (h : a.wf) :
    N.wf { a with value := v } := by
  unfold N.wf at h ⊢
  simpa using h

theorem wf_rebase (a b : N) (ha : a.wf) (hb : b.wf) :
    (N.rebase a b).1.wf ∧ (N.rebase a b).2.wf := by
  obtain ⟨ha1, ha2, ha3⟩ := ha
  obtain ⟨hb1, hb2, hb3⟩ := hb
  unfold N.rebase
  split_ifs with h1 h2 <;>
    refine ⟨⟨?_, ?_, ?_⟩, ⟨?_, ?_, ?_⟩⟩ <;> simp_all <;> omega

theorem constructCore_wf (v d p : Int) (ip : Bool) (n : N)
    (h : N.constructCore v d p ip = Except.ok n) : n.wf := by
  unfold N.constructCore at h
  by_cases hd : d < 0
  · rw [if_pos hd] at h; exact absurd h (by simp)
  · rw [if_neg hd] at h
    simp only [Except.ok.injEq] at h
    subst h
    refine ⟨rfl, rfl, ?_⟩
    dsimp only
    split_ifs <;> omega

/-- Evaluation of the Newton square-root method on a well-formed
instance never changes any field besides value, a fact used in the
invariant-preservation proof. -/
theorem sqrt_wf (a : N) (ha : a.wf) : ∀ r ∈ N.sqrt a, r.wf := by
  intro r hr
  unfold N.sqrt N.clone at hr
  simp only [Option.mem_def] at hr
  split_ifs at hr <;> simp only [Option.some.injEq] at hr
  · exact hr ▸ ha
  · exact hr ▸ wf_value_update a _ ha

/-!
Claim theorems.
-/

/-- Claim C1 (code bug, evaluated at the failing input): the operands
b = 30 at precision 1 and b2 = 3 at precision 0 denote the same exact
decimal value 3, yet mul with the receiver a = 2 at precision 0 yields
stored value 600 at factor 10 (decimal 60) against b and stored value 6
at factor 1 (decimal 6) against b2 — the cross products 600 and 60
differ, so the product depends on the operand precision.  The slip is
that mul divides by the pre-rebase receiver factor instead of the
common factor after rebasing. -/
theorem C1_mul_depends_on_operand_precision :
    ((N.construct 2 0 0 false).toOption.bind fun a =>
      (N.construct 30 1 1 false).toOption.bind fun b =>
        (N.construct 3 0 0 false).toOption.map fun b2 =>
          (decide (b.value * b2.factor = b2.value * b.factor),
           (N.mul a b).value * (N.mul a b2).factor,
           (N.mul a b2).value * (N.mul a b).factor))
      = some (true, 600, 60) ∧ (600 : Int) ≠ 60 := by
  constructor
  · decide
  · decide

/-- Claim C3: construction (by value, by string, and the precise path)
only produces well-formed instances, and every arithmetic operation,
comparison input, and clone preserves well-formedness: factor is always
ten to the precision, decimalsFactor ten to the decimals, and precision
is at least decimals. -/
theorem C3_representation_invariant :
    (∀ (v d p : Int) (ip : Bool) (n : N),
        N.construct v d p ip = Except.ok n → n.wf) ∧
    (∀ (s : List JChar) (d p : Int) (n : N),
        N.constructStr s d p = Except.ok n → n.wf) ∧
    ∀ (a b : N), a.wf → b.wf →
      (N.plus a b).wf ∧ (N.minus a b).wf ∧ (N.mul a b).wf ∧
      (N.multipliedBy a b).wf ∧ (N.sq a).wf ∧
      (∀ r ∈ N.div a b, r.wf) ∧ (∀ r ∈ N.sqrt a, r.wf) ∧ (N.clone a).wf := by
  refine ⟨?_, ?_, ?_⟩
  · intro v d p ip n h
    exact constructCore_wf v d p ip n h
  · intro s d p n h
    unfold N.constructStr at h
    by_cases hdot : hasDot s = true
    · rw [if_pos hdot] at h
      cases hp : parseBI (s.filter fun c => !(isDot c)) <;> rw [hp] at h
      · exact absurd h (by simp)
      · exact constructCore_wf _ _ _ _ n (by simpa using h)
    · rw [if_neg hdot] at h
      cases hq : parseBI s <;> rw [hq] at h
      · exact absurd h (by simp)
      · exact constructCore_wf _ _ _ _ n (by simpa using h)
  · intro a b ha hb
    have hr := wf_rebase (N.clone a) (N.clone b) ha hb
    refine ⟨wf_value_update _ _ hr.1, wf_value_update _ _ hr.1,
            wf_value_update _ _ hr.1, wf_value_update _ _ hr.1,
            ?_, ?_, sqrt_wf a ha, ha⟩
    · have hs := wf_rebase (N.clone a) (N.clone a) ha ha
      exact wf_value_update _ _ hs.1
    · intro r hrr
      unfold N.div at hrr
      simp only [Option.mem_def] at hrr
      split_ifs at hrr
      simp only [Option.some.injEq] at hrr
      exact hrr ▸ wf_value_update _ _ hr.1

/-- Witness for C3 at concrete well-formed inputs. -/
theorem C3_witness :
    N.wf { value := 2, precision := 0, factor := 1, decimals := 0,
           decimalsFactor := 1 } ∧
    N.wf (N.plus
      { value := 2, precision := 0, factor := 1, decimals := 0,
        decimalsFactor := 1 }
      { value := 30, precision := 1, factor := 10, decimals := 1,
        decimalsFactor := 10 }) :=
  ⟨by decide,
   (C3_representation_invariant.2.2 _ _ (by decide) (by decide)).1⟩

/-- Claim C4 (counterexample): the divisor 0 (a well-formed instance
produced by the constructor) makes div throw, against the claim that
div never raises for any well-formed divisor. -/
theorem C4_div_by_zero_raises :
    ((N.construct 1 0 0 false).toOption.bind fun a =>
      (N.construct 0 0 0 false).toOption.map fun z =>
        (decide z.wf, N.div a z)) = some (true, none) := by
  decide

/-- Claim C4 (amended): div returns normally exactly for divisors with
nonzero stored value; every other listed operation is a total function
of this embedding.  The rebased divisor is the stored divisor value
times a power of ten, so it vanishes exactly when the stored value
does. -/
theorem C4_div_total_iff_divisor_nonzero (a b : N) :
    (N.div a b).isSome ↔ b.value ≠ 0 := by
  unfold N.div N.rebase N.clone
  split_ifs with h1 h2
  · by_cases hb : b.value = 0
    · simp [hb]
    · have : b.value * (10 : Int) ^ (a.precision - b.precision) ≠ 0 :=
        mul_ne_zero hb (pow_ne_zero _ (by norm_num))
      simp [this, hb]
  · by_cases hb : b.value = 0 <;> simp [hb]
  · by_cases hb : b.value = 0 <;> simp [hb]

/-- Claim C5: with a power-of-ten divisor, the HALF_AWAY_FROM_ZERO
rounder carries +1 exactly when the value is positive and twice the
remainder of its absolute value reaches the divisor, -1 exactly when
the value is negative and twice that remainder reaches the divisor,
and 0 otherwise. -/
theorem C5_half_away_from_zero_rule (v : Int) (k : Nat) (hk : 0 < k) :
    N.roundersHALF_AWAY_FROM_ZERO v ((10 : Int) ^ k) =
      if 0 < v ∧ (10 : Int) ^ k ≤ 2 * ((v.natAbs : Int) % (10 : Int) ^ k) then 1
      else if v < 0 ∧ (10 : Int) ^ k ≤ 2 * ((v.natAbs : Int) % (10 : Int) ^ k) then -1
      else 0 := by
  have hfpos : (0 : Int) < 10 ^ k := by positivity
  unfold N.roundersHALF_AWAY_FROM_ZERO
  rcases lt_trichotomy v 0 with hv | rfl | hv
  · have hsign : (if v < 0 then (-1 : Int) else 1) = -1 := if_pos hv
    have habs : (-1 : Int) * v = (v.natAbs : Int) := by
      rw [Int.ofNat_natAbs_of_nonpos hv.le]; ring
    simp only [hsign, habs,
      Int.tmod_eq_emod (Int.natCast_nonneg _) hfpos.le]
    generalize ((v.natAbs : Int) % 10 ^ k) = A
    generalize ((10 : Int) ^ k) = B at hfpos ⊢
    split_ifs <;> omega
  · simp [Int.zero_tmod, hfpos.not_le, lt_irrefl]
  · have hsign : (if v < 0 then (-1 : Int) else 1) = 1 := if_neg (by omega)
    have habs : (1 : Int) * v = (v.natAbs : Int) := by
      rw [Int.natAbs_of_nonneg hv.le]; ring
    simp only [hsign, habs,
      Int.tmod_eq_emod (Int.natCast_nonneg _) hfpos.le]
    generalize ((v.natAbs : Int) % 10 ^ k) = A
    generalize ((10 : Int) ^ k) = B at hfpos ⊢
    split_ifs <;> omega

/-- Witness for C5 at v = 15 and k = 1: the remainder 5 doubled equals
the divisor 10, so the carry is +1. -/
theorem C5_witness :
    0 < 1 ∧
    N.roundersHALF_AWAY_FROM_ZERO 15 ((10 : Int) ^ 1) =
      if 0 < (15 : Int) ∧ (10 : Int) ^ 1 ≤ 2 * (((15 : Int).natAbs : Int) % (10 : Int) ^ 1) then 1
      else if (15 : Int) < 0 ∧ (10 : Int) ^ 1 ≤ 2 * (((15 : Int).natAbs : Int) % (10 : Int) ^ 1) then -1
      else 0 :=
  ⟨by decide, C5_half_away_from_zero_rule 15 1 (by decide)⟩

/-- Claim C7 (counterexample): on the instance 5 at precision 0 under
the CUSTOM mode with a custom rounder that always carries one, valueOf
returns 6 while toDecimal(0) returns 5. -/
theorem C7_counterexample :
    ((N.construct 5 0 0 false).toOption.map fun a =>
      (N.valueOf ⟨RMode.CUSTOM, fun _ _ => 1⟩ a,
       N.toDecimal ⟨RMode.CUSTOM, fun _ _ => 1⟩ a 0)) = some (6, 5) ∧
    (6 : Int) ≠ 5 := by
  constructor <;> decide

/-- Claim C7 (amended): valueOf agrees with toDecimal(0) on every
well-formed instance under every built-in rounding mode, and under the
CUSTOM mode as well whenever the precision is positive (then the two
sides are the same expression); only a CUSTOM rounder on a
precision-zero instance can separate them. -/
theorem C7_valueOf_eq_toDecimal_zero (c : Config) (a : N) (hwf : a.wf)
    (h : c.mode ≠ RMode.CUSTOM ∨ 0 < a.precision) :
    N.valueOf c a = N.toDecimal c a 0 := by
  rcases Nat.eq_zero_or_pos a.precision with hp | hp
  · have hc : c.mode ≠ RMode.CUSTOM := by
      rcases h with h | h
      · exact h
      · omega
    obtain ⟨mode, fn⟩ := c
    unfold N.valueOf N.toDecimal
    rw [if_neg (by simp [hp])]
    rw [hwf.1, hp]
    have hzero : N.rounder ⟨mode, fn⟩ a.value ((10 : Int) ^ (0 : Nat)) = 0 := by
      cases mode
      case CUSTOM => exact absurd rfl hc
      all_goals
        simp [N.rounder, N.rounders, N.roundersDOWN, N.roundersUP,
          N.roundersTOWARD_ZERO, N.roundersHALF_AWAY_FROM_ZERO, Int.tmod_one]
    rw [hzero]
    simp
  · unfold N.valueOf N.toDecimal
    rw [if_pos (by exact_mod_cast hp)]
    have he : ((a.precision : Int) - 0).toNat = a.precision := by omega
    rw [he, hwf.1]

/-- Witness for C7 at the default configuration and the instance 7 at
precision 0. -/
theorem C7_witness :
    N.wf { value := 7, precision := 0, factor := 1, decimals := 0,
           decimalsFactor := 1 } ∧
    N.valueOf defaultConfig
        { value := 7, precision := 0, factor := 1, decimals := 0,
          decimalsFactor := 1 } =
      N.toDecimal defaultConfig
        { value := 7, precision := 0, factor := 1, decimals := 0,
          decimalsFactor := 1 } 0 :=
  ⟨by decide,
   C7_valueOf_eq_toDecimal_zero defaultConfig _ (by decide)
     (Or.inl (by decide))⟩

/-- Claim C8: sqrt throws exactly on negative stored values; it
returns normally on every nonnegative well-formed receiver, and when
the Newton radicand value * factor is below two it returns a fresh
instance with the value unchanged. -/
theorem C8_sqrt_domain (a : N) (hwf : a.wf) :
    (N.sqrt a = none ↔ a.value < 0) ∧
    (0 ≤ a.value → (N.sqrt a).isSome) ∧
    (0 ≤ a.value → a.value * a.factor < 2 → N.sqrt a = some a) := by
  have hfpos : (0 : Int) < a.factor := by rw [hwf.1]; positivity
  have hneg : a.value * a.factor < 0 ↔ a.value < 0 := by
    constructor
    · intro h
      by_contra hge
      push_neg at hge
      nlinarith
    · intro h
      nlinarith
  simp only [N.sqrt, N.clone]
  refine ⟨?_, ?_, ?_⟩
  · constructor
    · intro h
      split_ifs at h with h1 h2
      exact hneg.mp h1
    · intro h
      rw [if_pos (hneg.mpr h)]
  · intro h0
    rw [if_neg (not_lt.mpr (mul_nonneg h0 hfpos.le))]
    split_ifs <;> simp
  · intro h0 h2
    rw [if_neg (not_lt.mpr (mul_nonneg h0 hfpos.le)), if_pos h2]

/-- Witness for C8 at the well-formed instance 0.5 stored as 5 at
precision 1. -/
theorem C8_witness :
    N.wf { value := 5, precision := 1, factor := 10, decimals := 1,
           decimalsFactor := 10 } ∧
    ((N.sqrt { value := 5, precision := 1, factor := 10, decimals := 1,
               decimalsFactor := 10 } = none ↔
        ({ value := 5, precision := 1, factor := 10, decimals := 1,
           decimalsFactor := 10 } : N).value < 0) ∧
     ((0 : Int) ≤ 5 →
        (N.sqrt { value := 5, precision := 1, factor := 10, decimals := 1,
                  decimalsFactor := 10 }).isSome) ∧
     ((0 : Int) ≤ 5 → (5 : Int) * 10 < 2 →
        N.sqrt { value := 5, precision := 1, factor := 10, decimals := 1,
                 decimalsFactor := 10 } =
          some { value := 5, precision := 1, factor := 10, decimals := 1,
                 decimalsFactor := 10 })) :=
  ⟨by decide, C8_sqrt_domain _ (by decide)⟩

/-- Claim C9 (counterexample): supplying the negative decimals -3
together with the dotted string 1.5 succeeds, because the string
branch overwrites the supplied decimals with the fractional digit
count before the negativity matters. -/
theorem C9_counterexample :
    ((N.constructStr [JChar.digit 1, JChar.dot, JChar.digit 5] (-3) 80).toOption).isSome
      = true := by
  decide

/-- Claim C9 (amended): construction with negative supplied decimals
fails (with no instance produced) on every non-string path and on
every dot-free string, while on a dotted string the supplied decimals
argument is ignored entirely. -/
theorem C9_negative_decimals :
    (∀ (v d p : Int) (ip : Bool), d < 0 →
        N.construct v d p ip =
          Except.error "RangeError: Exponent must be non-negative") ∧
    (∀ (s : List JChar) (d p : Int), d < 0 → hasDot s = false →
        (N.constructStr s d p).toOption = none) ∧
    (∀ (s : List JChar) (d d2 p : Int), hasDot s = true →
        N.constructStr s d p = N.constructStr s d2 p) := by
  refine ⟨?_, ?_, ?_⟩
  · intro v d p ip hd
    unfold N.construct N.constructCore
    rw [if_pos hd]
  · intro s d p hd hnd
    unfold N.constructStr
    rw [if_neg (by simp [hnd])]
    cases hq : parseBI s with
    | none => rfl
    | some val =>
        show (N.constructCore val d p false).toOption = none
        unfold N.constructCore
        rw [if_pos hd]
        rfl
  · intro s d d2 p hdot
    unfold N.constructStr
    rw [if_pos hdot, if_pos hdot]

/-- Witness for C9 at decimals -1. -/
theorem C9_witness :
    ((-1 : Int) < 0) ∧
    N.construct 5 (-1) 80 false =
      Except.error "RangeError: Exponent must be non-negative" :=
  ⟨by decide, C9_negative_decimals.1 5 (-1) 80 false (by decide)⟩

/-- Claim C10: adding then subtracting the same operand is exact: the
pipeline only rescales by powers of ten and adds, so the intermediate
sum at the common precision subtracts back to the rebased receiver,
and eq rebases the original receiver to the same scale. -/
theorem C10_plus_minus_exact (a b : N) :
    N.eq (N.minus (N.plus a b) b) a = true := by
  unfold N.eq N.minus N.plus N.rebase N.clone
  rcases Nat.lt_trichotomy b.precision a.precision with h | h | h
  · simp [h, Nat.lt_asymm h, lt_irrefl, add_sub_cancel_right]
  · simp [h, lt_irrefl, add_sub_cancel_right]
  · simp [h, Nat.lt_asymm h, lt_irrefl, add_sub_cancel_right]

/-!
Frame lemmas for the heap model.
-/

theorem Heap.read_write (h : Heap) (r s : Nat) (v : N) :
    (h.write s v).read r = if r = s then v else h.read r := rfl

theorem cloneRef_read (h : Heap) (x r : Nat) (hr : r < h.size) :
    (cloneRef h x).1.read r = h.read r := by
  unfold cloneRef Heap.alloc Heap.read
  dsimp only
  rw [if_neg (by omega)]

theorem cloneRef_ref (h : Heap) (x : Nat) : (cloneRef h x).2 = h.size := rfl

theorem cloneRef_size (h : Heap) (x : Nat) :
    (cloneRef h x).1.size = h.size + 1 := rfl

theorem rebaseRef_read_other (h : Heap) (s o r : Nat) (hrs : r ≠ s)
    (hro : r ≠ o) : (rebaseRef h s o).read r = h.read r := by
  simp only [rebaseRef]
  split_ifs <;> simp [Heap.read_write, hrs, hro]

theorem rebaseRef_size (h : Heap) (s o : Nat) :
    (rebaseRef h s o).size = h.size := by
  simp only [rebaseRef]
  split_ifs <;> rfl

theorem binPrep_read (h : Heap) (a b r : Nat) (hr : r < h.size) :
    (binPrep h a b).1.read r = h.read r := by
  show (rebaseRef (cloneRef (cloneRef h a).1 b).1 (cloneRef h a).2
          (cloneRef (cloneRef h a).1 b).2).read r = h.read r
  rw [rebaseRef_read_other _ _ _ _ (by rw [cloneRef_ref]; omega)
        (by rw [cloneRef_ref, cloneRef_size]; omega)]
  rw [cloneRef_read _ _ _ (by rw [cloneRef_size]; omega),
      cloneRef_read _ _ _ hr]

theorem binPrep_ref1 (h : Heap) (a b : Nat) :
    (binPrep h a b).2.1 = h.size := rfl

theorem write_binPrep_read (h : Heap) (a b r : Nat) (v : N)
    (hr : r < h.size) :
    ((binPrep h a b).1.write (binPrep h a b).2.1 v).read r = h.read r := by
  rw [Heap.read_write, if_neg (by rw [binPrep_ref1]; omega),
      binPrep_read _ _ _ _ hr]

/-- Claim C6: no binary or unary operation mutates the object behind
either operand reference (all five stored fields are read back
unchanged after the call), and every arithmetic operation returns a
freshly allocated reference distinct from both operand references. -/
theorem C6_no_operand_mutation (h : Heap) (a b : Nat)
    (ha : a < h.size) (hb : b < h.size) :
    ((plusRef h a b).1.read a = h.read a ∧
     (plusRef h a b).1.read b = h.read b ∧
     (plusRef h a b).2 ≠ a ∧ (plusRef h a b).2 ≠ b) ∧
    ((minusRef h a b).1.read a = h.read a ∧
     (minusRef h a b).1.read b = h.read b ∧
     (minusRef h a b).2 ≠ a ∧ (minusRef h a b).2 ≠ b) ∧
    ((mulRef h a b).1.read a = h.read a ∧
     (mulRef h a b).1.read b = h.read b ∧
     (mulRef h a b).2 ≠ a ∧ (mulRef h a b).2 ≠ b) ∧
    ((multipliedByRef h a b).1.read a = h.read a ∧
     (multipliedByRef h a b).1.read b = h.read b ∧
     (multipliedByRef h a b).2 ≠ a ∧ (multipliedByRef h a b).2 ≠ b) ∧
    ((sqRef h a).1.read a = h.read a ∧ (sqRef h a).1.read b = h.read b ∧
     (sqRef h a).2 ≠ a ∧ (sqRef h a).2 ≠ b) ∧
    (∀ h2 r, divRef h a b = some (h2, r) →
       h2.read a = h.read a ∧ h2.read b = h.read b ∧ r ≠ a ∧ r ≠ b) ∧
    (∀ h2 r, sqrtRef h a = some (h2, r) →
       h2.read a = h.read a ∧ h2.read b = h.read b ∧ r ≠ a ∧ r ≠ b) ∧
    ((eqRef h a b).1.read a = h.read a ∧
     (eqRef h a b).1.read b = h.read b) ∧
    ((ltRef h a b).1.read a = h.read a ∧
     (ltRef h a b).1.read b = h.read b) ∧
    ((lteRef h a b).1.read a = h.read a ∧
     (lteRef h a b).1.read b = h.read b) ∧
    ((gtRef h a b).1.read a = h.read a ∧
     (gtRef h a b).1.read b = h.read b) ∧
    ((gteRef h a b).1.read a = h.read a ∧
     (gteRef h a b).1.read b = h.read b) := by
  refine ⟨⟨write_binPrep_read h a b a _ ha, write_binPrep_read h a b b _ hb,
           by rw [show (plusRef h a b).2 = h.size from rfl]; omega,
           by rw [show (plusRef h a b).2 = h.size from rfl]; omega⟩,
          ⟨write_binPrep_read h a b a _ ha, write_binPrep_read h a b b _ hb,
           by rw [show (minusRef h a b).2 = h.size from rfl]; omega,
           by rw [show (minusRef h a b).2 = h.size from rfl]; omega⟩,
          ⟨write_binPrep_read h a b a _ ha, write_binPrep_read h a b b _ hb,
           by rw [show (mulRef h a b).2 = h.size from rfl]; omega,
           by rw [show (mulRef h a b).2 = h.size from rfl]; omega⟩,
          ⟨write_binPrep_read h a b a _ ha, write_binPrep_read h a b b _ hb,
           by rw [show (multipliedByRef h a b).2 = h.size from rfl]; omega,
           by rw [show (multipliedByRef h a b).2 = h.size from rfl]; omega⟩,
          ⟨write_binPrep_read h a a a _ ha, write_binPrep_read h a a b _ hb,
           by rw [show (sqRef h a).2 = h.size from rfl]; omega,
           by rw [show (sqRef h a).2 = h.size from rfl]; omega⟩,
          ?_, ?_,
          ⟨binPrep_read h a b a ha, binPrep_read h a b b hb⟩,
          ⟨binPrep_read h a b a ha, binPrep_read h a b b hb⟩,
          ⟨binPrep_read h a b a ha, binPrep_read h a b b hb⟩,
          ⟨binPrep_read h a b a ha, binPrep_read h a b b hb⟩,
          ⟨binPrep_read h a b a ha, binPrep_read h a b b hb⟩⟩
  · intro h2 r heq
    simp only [divRef] at heq
    split_ifs at heq
    rw [Option.some.injEq, Prod.mk.injEq] at heq
    obtain ⟨rfl, rfl⟩ := heq
    exact ⟨write_binPrep_read h a b a _ ha, write_binPrep_read h a b b _ hb,
           by rw [binPrep_ref1]; omega, by rw [binPrep_ref1]; omega⟩
  · intro h2 r heq
    simp only [sqrtRef] at heq
    split_ifs at heq
    · rw [Option.some.injEq] at heq
      obtain ⟨rfl, rfl⟩ : h2 = (cloneRef h a).1 ∧ r = (cloneRef h a).2 :=
        ⟨(congrArg Prod.fst heq).symm, (congrArg Prod.snd heq).symm⟩
      exact ⟨cloneRef_read h a a ha, cloneRef_read h a b hb,
             by rw [cloneRef_ref]; omega, by rw [cloneRef_ref]; omega⟩
    · rw [Option.some.injEq, Prod.mk.injEq] at heq
      obtain ⟨rfl, rfl⟩ := heq
      refine ⟨?_, ?_, by rw [cloneRef_ref]; omega, by rw [cloneRef_ref]; omega⟩
      · rw [Heap.read_write, if_neg (by rw [cloneRef_ref]; omega),
            cloneRef_read h a a ha]
      · rw [Heap.read_write, if_neg (by rw [cloneRef_ref]; omega),
            cloneRef_read h a b hb]

/-- Witness for C6 on a two-object heap at references 0 and 1. -/
theorem C6_witness :
    (0 < (Heap.mk (fun _ => default) 2).size ∧
     1 < (Heap.mk (fun _ => default) 2).size) ∧
    ((plusRef (Heap.mk (fun _ => default) 2) 0 1).1.read 0 =
        (Heap.mk (fun _ => default) 2).read 0 ∧
     (plusRef (Heap.mk (fun _ => default) 2) 0 1).1.read 1 =
        (Heap.mk (fun _ => default) 2).read 1 ∧
     (plusRef (Heap.mk (fun _ => default) 2) 0 1).2 ≠ 0 ∧
     (plusRef (Heap.mk (fun _ => default) 2) 0 1).2 ≠ 1) :=
  ⟨⟨by decide, by decide⟩,
   (C6_no_operand_mutation (Heap.mk (fun _ => default) 2) 0 1
     (by decide) (by decide)).1⟩

/-!
Digit arithmetic for the string round trip.
-/

theorem ofDigitsBE_acc (L : List Nat) : ∀ acc : Nat,
    L.foldl (fun a d => 10 * a + d) acc =
      acc * 10 ^ L.length + L.foldl (fun a d => 10 * a + d) 0 := by
  induction L with
  | nil => intro acc; simp
  | cons d T ih =>
      intro acc
      simp only [List.foldl_cons, List.length_cons]
      rw [ih (10 * acc + d), ih (10 * 0 + d)]
      ring

theorem ofDigitsBE_cons (d : Nat) (T : List Nat) :
    ofDigitsBE (d :: T) = d * 10 ^ T.length + ofDigitsBE T := by
  unfold ofDigitsBE
  rw [List.foldl_cons, ofDigitsBE_acc T (10 * 0 + d)]
  ring

theorem ofDigitsBE_eq_ofDigits (L : List Nat) :
    ofDigitsBE L = Nat.ofDigits 10 L.reverse := by
  induction L with
  | nil => rfl
  | cons d T ih =>
      rw [ofDigitsBE_cons, ih, List.reverse_cons, Nat.ofDigits_append,
        Nat.ofDigits_singleton, List.length_reverse]
      ring

theorem ofDigitsBE_stripZeros (L : List Nat) :
    ofDigitsBE (stripZeros L) = ofDigitsBE L := by
  induction L with
  | nil => rfl
  | cons d T ih =>
      by_cases hd : d = 0
      · subst hd
        rw [show stripZeros (0 :: T) = stripZeros T from by
              simp [stripZeros, List.dropWhile_cons]]
        rw [ih, ofDigitsBE_cons]
        simp
      · rw [show stripZeros (d :: T) = d :: T from by
              simp [stripZeros, List.dropWhile_cons, hd]]

theorem dropWhile_head_false {α : Type} (p : α → Bool) :
    ∀ (l : List α) (x : α) (xs : List α),
      List.dropWhile p l = x :: xs → p x = false := by
  intro l
  induction l with
  | nil => intro x xs h; simp [List.dropWhile] at h
  | cons a t ih =>
      intro x xs h
      rw [List.dropWhile_cons] at h
      split_ifs at h with hpa
      · exact ih x xs h
      · injection h with h1 h2
        subst h1
        simpa using hpa

theorem reprDigits_ofDigitsBE (m : Nat) (T : List Nat) (hm : m ≠ 0)
    (h10 : ∀ x ∈ m :: T, x < 10) :
    reprDigits (ofDigitsBE (m :: T)) = m :: T := by
  have hprod : 0 < m * 10 ^ T.length :=
    Nat.mul_pos (by omega) (pow_pos (by norm_num) _)
  have hcons := ofDigitsBE_cons m T
  have hpos : 0 < ofDigitsBE (m :: T) := by omega
  unfold reprDigits
  rw [if_neg (by omega)]
  rw [ofDigitsBE_eq_ofDigits]
  rw [Nat.digits_ofDigits 10 (by norm_num) ((m :: T).reverse)
        (fun l hl => h10 l (List.mem_reverse.mp hl))
        (fun hne => by
          have h1 : ((m :: T).reverse).getLast? = some m := by
            rw [List.getLast?_reverse]
            rfl
          rw [List.getLast?_eq_getLast _ hne] at h1
          injection h1 with h2
          omega)]
  exact List.reverse_reverse _

theorem pad_split (I F : List Nat) (hI : ∀ x ∈ I, x < 10)
    (hF : ∀ x ∈ F, x < 10) (hFne : F ≠ []) :
    padD (reprDigits (ofDigitsBE (I ++ F))) F.length = stripZeros I ++ F := by
  have hd1 : 1 ≤ F.length := List.length_pos.mpr hFne
  have hm : ofDigitsBE (I ++ F) = ofDigitsBE (stripZeros (I ++ F)) :=
    (ofDigitsBE_stripZeros _).symm
  rcases hS : stripZeros (I ++ F) with _ | ⟨s0, T⟩
  · have hz : ∀ x ∈ I ++ F, x = 0 := by
      intro x hx
      have h0 := List.dropWhile_eq_nil_iff.mp
        (show List.dropWhile (fun d => d == 0) (I ++ F) = [] from hS) x hx
      simpa using h0
    have hm0 : ofDigitsBE (I ++ F) = 0 := by rw [hm, hS]; rfl
    have hIz : stripZeros I = [] := by
      simp only [stripZeros]
      exact List.dropWhile_eq_nil_iff.mpr
        (fun x hx => by simp [hz x (List.mem_append_left _ hx)])
    have hFz : F = List.replicate F.length 0 :=
      List.eq_replicate_iff.mpr
        ⟨rfl, fun b hb => hz b (List.mem_append_right _ hb)⟩
    rw [hm0, hIz, List.nil_append]
    show padD [0] F.length = F
    unfold padD
    conv_rhs => rw [hFz]
    rw [show List.length [0] = 1 from rfl]
    rw [← List.replicate_succ' (F.length - 1) 0]
    congr 1
    omega
  · have hs0 : s0 ≠ 0 := by
      have := dropWhile_head_false (fun d => d == 0) (I ++ F) s0 T
        (by simpa [stripZeros] using hS)
      simpa using this
    have h10 : ∀ x ∈ s0 :: T, x < 10 := by
      intro x hx
      have hmem : x ∈ I ++ F := by
        refine List.Sublist.mem ?_ (List.dropWhile_sublist (fun d => d == 0))
        rw [show List.dropWhile (fun d => d == 0) (I ++ F) = s0 :: T from
              by simpa [stripZeros] using hS]
        exact hx
      rcases List.mem_append.mp hmem with hx2 | hx2
      · exact hI x hx2
      · exact hF x hx2
    have hrepr : reprDigits (ofDigitsBE (I ++ F)) = s0 :: T := by
      rw [hm, hS]
      exact reprDigits_ofDigitsBE s0 T hs0 h10
    rw [hrepr]
    rcases hJ : stripZeros I with _ | ⟨j0, J2⟩
    · have hSF : stripZeros (I ++ F) = stripZeros F := by
        simp only [stripZeros] at hJ ⊢
        rw [List.dropWhile_append, hJ]
        simp
      have hG : stripZeros F = s0 :: T := by rw [← hSF, hS]
      have hlenG : (s0 :: T).length ≤ F.length := by
        rw [← hG]
        exact List.Sublist.length_le (List.dropWhile_sublist _)
      have htw : List.takeWhile (fun d => d == 0) F =
          List.replicate (F.length - (s0 :: T).length) 0 := by
        rw [List.eq_replicate_iff]
        refine ⟨?_, ?_⟩
        · have hlen := congrArg List.length
            (List.takeWhile_append_dropWhile (fun d => d == 0) F)
          rw [List.length_append] at hlen
          have hdw : (List.dropWhile (fun d => d == 0) F).length =
              (s0 :: T).length := by
            rw [show List.dropWhile (fun d => d == 0) F = s0 :: T from
                  by simpa [stripZeros] using hG]
          omega
        · intro b hb
          simpa using List.mem_takeWhile_imp hb
      have hFsplit :
          F = List.replicate (F.length - (s0 :: T).length) 0 ++ (s0 :: T) := by
        conv_lhs => rw [← List.takeWhile_append_dropWhile (fun d => d == 0) F]
        rw [htw, show List.dropWhile (fun d => d == 0) F = s0 :: T from
              by simpa [stripZeros] using hG]
      rw [List.nil_append]
      show padD (s0 :: T) F.length = F
      unfold padD
      exact hFsplit.symm
    · have hJne : (List.dropWhile (fun d => d == 0) I).isEmpty = false := by
        rw [show List.dropWhile (fun d => d == 0) I = j0 :: J2 from
              by simpa [stripZeros] using hJ]
        rfl
      have hSplit : stripZeros (I ++ F) = stripZeros I ++ F := by
        simp only [stripZeros]
        rw [List.dropWhile_append, hJne]
        simp
      have hST : s0 :: T = stripZeros I ++ F := by rw [← hS, hSplit]
      rw [hST]
      unfold padD
      rw [List.length_append]
      rw [show F.length - ((stripZeros I).length + F.length) = 0 from by omega]
      simp [hJ]

/-!
Computation of construction from a decimal string and of toString.
-/

theorem hasDot_mkDecStr (I F : List Nat) : hasDot (mkDecStr I F) = true := by
  simp [hasDot, mkDecStr, isDot]

theorem findIdx_mkDecStr (I F : List Nat) :
    (mkDecStr I F).findIdx isDot = I.length := by
  unfold mkDecStr
  induction I with
  | nil => simp [List.findIdx_cons, isDot]
  | cons i I2 ih => simp [List.findIdx_cons, isDot, ih]

theorem length_mkDecStr (I F : List Nat) :
    (mkDecStr I F).length = I.length + 1 + F.length := by
  simp [mkDecStr]
  omega

theorem filter_not_dot_digits (L : List Nat) :
    (L.map JChar.digit).filter (fun c => !(isDot c)) = L.map JChar.digit := by
  induction L with
  | nil => rfl
  | cons d T ih => simp [List.filter_cons, isDot, ih]

theorem filter_mkDecStr (I F : List Nat) :
    (mkDecStr I F).filter (fun c => !(isDot c)) = (I ++ F).map JChar.digit := by
  unfold mkDecStr
  rw [List.filter_append, List.filter_cons]
  rw [if_neg (by decide)]
  rw [filter_not_dot_digits, filter_not_dot_digits, List.map_append]

theorem digitVals_map (L : List Nat) : digitVals (L.map JChar.digit) = L := by
  induction L with
  | nil => rfl
  | cons d T ih => simp_all [digitVals]

theorem all_isDigit_map (L : List Nat) :
    (L.map JChar.digit).all isDigit = true := by
  induction L with
  | nil => rfl
  | cons d T ih => simp_all [isDigit]

theorem parseBI_digits (L : List Nat) :
    parseBI (L.map JChar.digit) = some ((ofDigitsBE L : Nat) : Int) := by
  cases L with
  | nil => rfl
  | cons d T =>
      show parseBI (JChar.digit d :: T.map JChar.digit) = _
      simp only [parseBI, all_isDigit_map (d :: T), if_true]
      rw [show JChar.digit d :: T.map JChar.digit = (d :: T).map JChar.digit
            from rfl]
      rw [all_isDigit_map (d :: T), digitVals_map (d :: T)]
      simp

theorem constructCore_nat (v : Int) (dn pn : Nat) :
    N.constructCore v (dn : Int) (pn : Int) false =
      Except.ok
        { value := (v * (10 : Int) ^ max pn dn).tdiv ((10 : Int) ^ dn)
          precision := max pn dn
          factor := (10 : Int) ^ max pn dn
          decimals := dn
          decimalsFactor := (10 : Int) ^ dn } := by
  unfold N.constructCore
  rw [if_neg (not_lt.mpr (by exact_mod_cast Int.natCast_nonneg dn))]
  have hmax : ((if (pn : Int) < (dn : Int) then (dn : Int) else (pn : Int))).toNat
      = max pn dn := by
    split_ifs with h <;> rw [Int.toNat_natCast] <;> omega
  simp only [Int.toNat_natCast, hmax, Bool.false_eq_true, if_false]

theorem tdiv_pow_cancel (m : Int) (dn P : Nat) (h : dn ≤ P) :
    (m * (10 : Int) ^ P).tdiv ((10 : Int) ^ dn) = m * (10 : Int) ^ (P - dn) := by
  have hsplit : (10 : Int) ^ P = (10 : Int) ^ (P - dn) * (10 : Int) ^ dn := by
    rw [← pow_add]
    congr 1
    omega
  rw [hsplit, ← mul_assoc, Int.mul_tdiv_cancel _ (pow_ne_zero _ (by norm_num))]

theorem toDecimal_scaled (m dn P : Nat) (hdP : dn ≤ P) :
    N.toDecimal defaultConfig
      { value := (m : Int) * (10 : Int) ^ (P - dn), precision := P,
        factor := (10 : Int) ^ P, decimals := dn,
        decimalsFactor := (10 : Int) ^ dn } ((dn : Nat) : Int) = (m : Int) := by
  unfold N.toDecimal
  dsimp only
  rcases Nat.lt_or_ge dn P with hlt | hge
  · rw [if_pos (by exact_mod_cast hlt)]
    have hpow : (((P : Nat) : Int) - ((dn : Nat) : Int)).toNat = P - dn := by
      omega
    rw [hpow]
    have hnotneg : ¬((m : Int) * (10 : Int) ^ (P - dn) < 0) :=
      not_lt.mpr (by positivity)
    have hr : N.rounder defaultConfig ((m : Int) * (10 : Int) ^ (P - dn))
        ((10 : Int) ^ (P - dn)) = 0 := by
      simp only [N.rounder, N.rounders, defaultConfig,
        N.roundersHALF_AWAY_FROM_ZERO]
      rw [if_neg hnotneg, one_mul, Int.mul_tmod_left]
      rw [if_neg (by simp only [zero_mul]
                     exact not_le.mpr (by positivity))]
    rw [hr, Int.mul_tdiv_cancel _ (pow_ne_zero _ (by norm_num))]
    simp
  · have hEq : dn = P := le_antisymm hdP hge
    subst hEq
    rw [if_neg (by omega)]
    simp

theorem toString_scaled (m dn P : Nat) (hdn : 1 ≤ dn) (hdP : dn ≤ P) :
    N.toStringDefault defaultConfig
      { value := (m : Int) * (10 : Int) ^ (P - dn), precision := P,
        factor := (10 : Int) ^ P, decimals := dn,
        decimalsFactor := (10 : Int) ^ dn } =
      ((padD (reprDigits m) dn).take
          ((padD (reprDigits m) dn).length - dn)).map JChar.digit ++
        JChar.dot ::
      ((padD (reprDigits m) dn).drop
          ((padD (reprDigits m) dn).length - dn)).map JChar.digit := by
  unfold N.toStringDefault N.toString
  dsimp only
  rw [toDecimal_scaled m dn P hdP]
  have hic : intChars ((m : Nat) : Int) = (reprDigits m).map JChar.digit := by
    unfold intChars
    rw [if_neg (not_lt.mpr (Int.natCast_nonneg m)), Int.toNat_natCast]
  rw [hic]
  have hps : jsPadStart ((reprDigits m).map JChar.digit) ((dn : Nat) : Int) =
      (padD (reprDigits m) dn).map JChar.digit := by
    unfold jsPadStart padD
    rw [Int.toNat_natCast, List.length_map, List.map_append,
      List.map_replicate]
  rw [hps]
  rw [if_pos (show (0 : Int) < ((dn : Nat) : Int) by exact_mod_cast hdn)]
  rw [List.length_map, Int.toNat_natCast]
  rw [← List.map_take, ← List.map_drop]

theorem constructStr_mkDecStr (I F : List Nat) :
    N.constructStrDefault (mkDecStr I F) =
      Except.ok
        { value := ((ofDigitsBE (I ++ F) : Nat) : Int) *
            (10 : Int) ^ (max 80 F.length - F.length)
          precision := max 80 F.length
          factor := (10 : Int) ^ max 80 F.length
          decimals := F.length
          decimalsFactor := (10 : Int) ^ F.length } := by
  unfold N.constructStrDefault N.constructStr
  rw [if_pos (hasDot_mkDecStr I F)]
  rw [filter_mkDecStr, parseBI_digits]
  dsimp only
  have hd : ((mkDecStr I F).length : Int) - 1 -
      ((mkDecStr I F).findIdx isDot : Int) = ((F.length : Nat) : Int) := by
    rw [findIdx_mkDecStr, length_mkDecStr]
    push_cast
    ring
  rw [hd]
  rw [show (if DEFAULT_PRECISION = 0 then ((F.length : Nat) : Int)
        else DEFAULT_PRECISION) = ((80 : Nat) : Int) from by
      simp [DEFAULT_PRECISION]]
  rw [constructCore_nat]
  rw [tdiv_pow_cancel _ _ _ (le_max_right 80 F.length)]

set_option maxRecDepth 4000 in
/-- Claim C2 (counterexample): the round trip fails on the negative
decimal string -0.05, which comes back as .-5 — the sign character
ends up after the decimal point, so the two strings differ even after
deleting every zero digit, which no leading or trailing zero
normalization can repair. -/
theorem C2_counterexample :
    (N.constructStrDefault
        [JChar.minus, JChar.digit 0, JChar.dot, JChar.digit 0,
         JChar.digit 5]).map
      (fun n => N.toStringDefault defaultConfig n) =
      Except.ok [JChar.dot, JChar.minus, JChar.digit 5] ∧
    [JChar.dot, JChar.minus, JChar.digit 5].filter nonzeroChar ≠
      [JChar.minus, JChar.digit 0, JChar.dot, JChar.digit 0,
       JChar.digit 5].filter nonzeroChar := by
  have h5 : Nat.digits 10 5 = [5] := by
    rw [Nat.digits_def' (by norm_num : (1 : Nat) < 10) (by norm_num : (0 : Nat) < 5)]
    norm_num
  have hrepr : reprDigits 5 = [5] := by
    unfold reprDigits
    rw [if_neg (by norm_num), h5]
    rfl
  constructor
  · have hcons : N.constructStrDefault
        [JChar.minus, JChar.digit 0, JChar.dot, JChar.digit 0,
         JChar.digit 5] =
        Except.ok
          { value := -(5 * (10 : Int) ^ 78), precision := 80,
            factor := (10 : Int) ^ 80, decimals := 2,
            decimalsFactor := (10 : Int) ^ 2 } := by
      rfl
    rw [hcons]
    simp only [Except.map]
    unfold N.toStringDefault N.toString
    dsimp only
    have htd : N.toDecimal defaultConfig
        { value := -(5 * (10 : Int) ^ 78), precision := 80,
          factor := (10 : Int) ^ 80, decimals := 2,
          decimalsFactor := (10 : Int) ^ 2 } ((2 : Nat) : Int) = -5 := by
      rfl
    rw [htd]
    have hic : intChars (-5) =
        JChar.minus :: (reprDigits 5).map JChar.digit := by
      unfold intChars
      rw [if_pos (by norm_num)]
      rfl
    rw [hic, hrepr]
    rfl
  · decide

/-- Claim C2 (amended): for every nonnegative decimal string I.F with
at least one fractional digit, construction followed by toString()
returns the same string with the leading zeros of the integer part
stripped (in particular the string itself when the integer part has no
leading zero); negative strings do not round-trip. -/
theorem C2_roundtrip (I F : List Nat) (hI : ∀ x ∈ I, x < 10)
    (hF : ∀ x ∈ F, x < 10) (hFne : F ≠ []) :
    (N.constructStrDefault (mkDecStr I F)).map
        (fun n => N.toStringDefault defaultConfig n) =
      Except.ok (mkDecStr (stripZeros I) F) := by
  rw [constructStr_mkDecStr]
  simp only [Except.map]
  rw [toString_scaled (ofDigitsBE (I ++ F)) F.length (max 80 F.length)
        (List.length_pos.mpr hFne) (le_max_right _ _)]
  rw [pad_split I F hI hF hFne]
  have hlen : (stripZeros I ++ F).length - F.length = (stripZeros I).length := by
    rw [List.length_append]
    omega
  rw [hlen, List.take_left, List.drop_left]
  rfl

/-- Witness for C2 at the string 100.05. -/
theorem C2_witness :
    (∀ x ∈ [1, 0, 0], x < 10) ∧ (∀ x ∈ [0, 5], x < 10) ∧
    ([0, 5] : List Nat) ≠ [] ∧
    (N.constructStrDefault (mkDecStr [1, 0, 0] [0, 5])).map
        (fun n => N.toStringDefault defaultConfig n) =
      Except.ok (mkDecStr (stripZeros [1, 0, 0]) [0, 5]) :=
  ⟨by decide, by decide, by decide,
   C2_roundtrip [1, 0, 0] [0, 5] (by decide) (by decide) (by decide)⟩
